import Mathlib

/-!
Shallow embedding of mgorny/pymodeline (src/pymodeline/__init__.py), a vim
modeline parser, together with proofs about the claims of its specification.

The source recognizes modelines with two Python regular expressions
(`_form1_re`, `_form2_re`), tokenizes the matched option span with
`_option_split_re`, unescapes values with `_option_unescape_re`, and resolves
option names through a dict subclass (`ModelineDict`) backed by an external
option table (`optionlist`).  The embedding below translates each of these
pieces into executable Lean definitions.  The regex semantics (Python `re`,
leftmost match with backtracking) are translated into explicit search
functions whose attempt order mirrors the backtracking order of the engine on
these concrete patterns; comments note every place where a greedy/lazy choice
collapses to a deterministic computation.

Character classes are restricted to ASCII: `\s` is modelled as the six ASCII
whitespace characters and `\d` as '0'..'9' (Python's `re` additionally treats
rare Unicode whitespace/digits the same way; no claim depends on those).
-/

namespace Pymodeline

/-- ASCII subset of Python's regex class `\s` (space, tab, newline, carriage
return, form feed, vertical tab). -/
def isPySpace (c : Char) : Bool :=
  c == ' ' || c == '\t' || c == '\n' || c == '\x0d' || c == '\x0c' || c == '\x0b'

/-- ASCII subset of Python's regex class `\d`. -/
def isPyDigit (c : Char) : Bool :=
  '0' ≤ c && c ≤ '9'

/-- Python `int()` on a digit string; `parse_line` applies it to
`m.group('version_no') or '0'`, so the empty digit list yields 0. -/
def digitsToNat (ds : List Char) : Nat :=
  ds.foldl (fun n c => 10 * n + (c.toNat - 48)) 0

/-- Line break characters recognized by Python `str.splitlines`. -/
def isLineBreak (c : Char) : Bool :=
  c == '\n' || c == '\x0d' || c == '\x0b' || c == '\x0c' ||
  c == '\x1c' || c == '\x1d' || c == '\x1e' || c == '\x85' ||
  c == '\u2028' || c == '\u2029'

/-- Worker for `pySplitlines`: accumulates the current line (reversed) and
splits at line breaks, treating "\r\n" as a single break; a trailing break
does not produce a final empty line. -/
def splitlinesGo : List Char → List Char → List (List Char)
  | acc, [] => if acc.isEmpty then [] else [acc.reverse]
  | acc, '\x0d' :: '\n' :: rest => acc.reverse :: splitlinesGo [] rest
  | acc, c :: rest =>
    if isLineBreak c then acc.reverse :: splitlinesGo [] rest
    else splitlinesGo (c :: acc) rest

/-- Python `str.splitlines` (universal newlines), as used by `parse_buffer`. -/
def pySplitlines (s : String) : List String :=
  (splitlinesGo [] s.data).map fun l => ⟨l⟩

/-! ## The regex embedding

Both regexes share the leading marker alternation

  `(?: (?: .*? \s+ )? (?: vi (?P<has_vim> m )? ) | .*? \s+ ex )`

followed by the conditional version constraint
`(?(has_vim) (?P<version_op> [<=>] )? (?P<version_no> \d* ) )` and a `:`.
They differ only in what follows the `:` (the "body").  The search functions
below reproduce the engine's attempt order on these patterns:

* branch 1 with the optional prefix group present, for `.*?` lengths
  k = 0, 1, 2, ... (lazy `.*?`, whose characters must not be newlines);
* branch 1 with the prefix group absent (`vi` at start of line);
* branch 2 (`ex` after whitespace), again for k = 0, 1, 2, ....

Inside a candidate, `\s+` is greedy; giving characters back would place the
following literal (`vi`/`ex`) on a whitespace character, so only the maximal
whitespace run can be followed by the marker and the computation is
deterministic.  `m?` is greedy, so the `vim` reading is tried before the
`vi` reading.
-/

/-- A successful match of either form: the `version_op` group (or `none`),
the `version_no` digit group, and the `options` group. -/
abbrev MatchRes := Option Char × List Char × List Char

/-- First-success choice; models both regex backtracking alternatives and the
Python `or` in `parse_line`. -/
def firstSome {α : Type} : Option α → Option α → Option α
  | some x, _ => some x
  | none, b => b

/-- The conditional version-constraint part `(?(has_vim) [<=>]? \d* ) :` of
both regexes.  When the marker was not `vim` the group is skipped and a `:`
must follow directly.  Both quantifiers are deterministic here: if `[<=>]?`
or `\d*` gave back a character, the following `:` would have to match an
operator or digit character, which it cannot. -/
def matchCT (hasVim : Bool) (rest : List Char) : Option MatchRes :=
  if hasVim then
    let opSplit : Option Char × List Char :=
      match rest with
      | c :: r => if c == '<' || c == '=' || c == '>' then (some c, r) else (none, rest)
      | [] => (none, [])
    let ds := opSplit.2.takeWhile isPyDigit
    match opSplit.2.drop ds.length with
    | ':' :: r2 => some (opSplit.1, ds, r2)
    | _ => none
  else
    match rest with
    | ':' :: r => some (none, [], r)
    | _ => none

/-- The negative lookahead `(?! se t? \s )` of `_form1_re`: true iff the list
begins with `se` or `set` followed by one whitespace character. -/
def startsWithSeT : List Char → Bool
  | a :: b :: c :: rest =>
    a == 's' && b == 'e' &&
      (isPySpace c ||
        (c == 't' && (match rest with | d :: _ => isPySpace d | [] => false)))
  | _ => false

/-- One attempt of `(?! se t? \s ) (?P<options> .* ) $` at a fixed position:
the lookahead must fail to fire, `.*` takes every non-newline character, and
`$` matches at the end of the input or just before a final newline. -/
def form1Take (r : List Char) : Option (List Char) :=
  if startsWithSeT r then none
  else
    match r.drop (r.takeWhile fun c => c != '\n').length with
    | [] => some (r.takeWhile fun c => c != '\n')
    | ['\n'] => some (r.takeWhile fun c => c != '\n')
    | _ => none

/-- Greedy `\s*` with backtracking: try consuming j whitespace characters for
j from the maximal run length down to 0, the first position where the
remainder of `_form1_re` succeeds wins. -/
def form1BodyGo (rest : List Char) : Nat → Option (List Char)
  | 0 => form1Take rest
  | j + 1 => firstSome (form1Take (rest.drop (j + 1))) (form1BodyGo rest j)

/-- The body of `_form1_re` after the `:`:
`\s* (?! se t? \s ) (?P<options> .* ) $`. -/
def form1Body (rest : List Char) : Option (List Char) :=
  form1BodyGo rest (rest.takeWhile isPySpace).length

/-- The `\s+ (?P<options> (?: [^:] | : (?<= \\ ) )+ ) :` tail of `_form2_re`.
The alternative `: (?<= \\ )` consumes a `:` and then asserts that the single
character before the new position is a backslash; that character is the `:`
itself, so the alternative never matches and the options group reduces to
`[^:]+`.  The group is greedy, so it takes the maximal run of non-colon
characters; `\s+` gives one character back only when that run is pure
whitespace (the group needs at least one character), and needs at least one
whitespace character of its own. -/
def form2SetBody (rest : List Char) : Option (List Char) :=
  match rest with
  | [] => none
  | c :: _ =>
    if !isPySpace c then none
    else
      let full := rest.takeWhile fun d => d != ':'
      if (rest.drop full.length).head? != some ':' then none
      else
        let ws := rest.takeWhile isPySpace
        if ws.length < full.length then some (full.drop ws.length)
        else if 2 ≤ full.length then some (full.drop (full.length - 1))
        else none

/-- The body of `_form2_re` after the `:`: `\s* se t? \s+ options :` (the
regex is not anchored at the end, so trailing text after the closing `:` is
ignored).  `\s*` is deterministic (giving back a character would place `s` on
whitespace); `t?` tries the `set` reading before the `se` reading. -/
def form2Body (rest : List Char) : Option (List Char) :=
  let r1 := rest.drop (rest.takeWhile isPySpace).length
  match r1 with
  | 's' :: 'e' :: r2 =>
    (match r2 with
     | 't' :: r3 => firstSome (form2SetBody r3) (form2SetBody r2)
     | _ => form2SetBody r2)
  | _ => none

/-- Combine the conditional version part with a form body into the
continuation applied after a marker candidate. -/
def tailK (body : List Char → Option (List Char)) (hasVim : Bool)
    (rest : List Char) : Option MatchRes :=
  match matchCT hasVim rest with
  | none => none
  | some (op, ds, r2) =>
    match body r2 with
    | none => none
    | some o => some (op, ds, o)

/-- After the literal `vi`: greedy `(?P<has_vim> m )?` tries the `vim`
reading first, then falls back to plain `vi` (which then requires a `:` at
the `m`, so the fallback can only fail; it is kept for fidelity). -/
def tryVi (K : Bool → List Char → Option MatchRes) (afterVi : List Char) :
    Option MatchRes :=
  match afterVi with
  | 'm' :: r => firstSome (K true r) (K false afterVi)
  | _ => K false afterVi

/-- Branch 1 with the prefix group present: `.*? \s+ vi m?` tried at
successive lazy lengths.  At each position the whole continuation is run; on
failure the lazy `.*?` extends by one (non-newline) character. -/
def a1Search (K : Bool → List Char → Option MatchRes) : List Char → Option MatchRes
  | [] => none
  | c :: rest =>
    firstSome
      (if isPySpace c then
        match (c :: rest).drop ((c :: rest).takeWhile isPySpace).length with
        | 'v' :: 'i' :: r => tryVi K r
        | _ => none
      else none)
      (if c == '\n' then none else a1Search K rest)

/-- Branch 2: `.*? \s+ ex`, tried after every attempt of branch 1 failed.
The conditional group is skipped for `ex`, so the version groups stay empty. -/
def a2Search (K : Bool → List Char → Option MatchRes) : List Char → Option MatchRes
  | [] => none
  | c :: rest =>
    firstSome
      (if isPySpace c then
        match (c :: rest).drop ((c :: rest).takeWhile isPySpace).length with
        | 'e' :: 'x' :: r => K false r
        | _ => none
      else none)
      (if c == '\n' then none else a2Search K rest)

/-- The shared marker alternation of both regexes, in the engine's attempt
order: branch 1 with prefix (all lazy lengths), branch 1 without prefix
(`vi` at the start of the line), then branch 2 (`ex` after whitespace). -/
def markerScan (K : Bool → List Char → Option MatchRes) (l : List Char) :
    Option MatchRes :=
  firstSome (a1Search K l)
    (firstSome
      (match l with
       | 'v' :: 'i' :: r => tryVi K r
       | _ => none)
      (a2Search K l))

/-- `_form1_re.match l` -/
def matchForm1 (l : List Char) : Option MatchRes :=
  markerScan (tailK form1Body) l

/-- `_form2_re.match l` -/
def matchForm2 (l : List Char) : Option MatchRes :=
  markerScan (tailK form2Body) l

/-! ## Tokenization and unescaping -/

/-- The character class `[:\s]` of `_option_split_re` and
`_option_unescape_re`. -/
def isDelim (c : Char) : Bool :=
  c == ':' || isPySpace c

/-- Worker for `splitOpts`, a state machine equivalent of
`re.split(r'(?<! \\ ) [:\s]+', s)`: a delimiter character starts a split
run only when the previous character of the string is not a backslash; once
a run has started it extends greedily over delimiter characters regardless of
lookbehind.  Fields between runs are returned, including empty fields at the
boundaries. -/
def splitGo : Option Char → Bool → List Char → List Char → List (List Char)
  | _, _, acc, [] => [acc.reverse]
  | _, true, acc, c :: rest =>
    if isDelim c then splitGo (some c) true acc rest
    else splitGo (some c) false (c :: acc) rest
  | prev, false, acc, c :: rest =>
    if isDelim c && !(prev == some '\\') then
      acc.reverse :: splitGo (some c) true [] rest
    else splitGo (some c) false (c :: acc) rest

/-- `re.split(_option_split_re, s)`. -/
def splitOpts (l : List Char) : List (List Char) :=
  splitGo none false [] l

/-- `_option_unescape_re.sub(r'\1', v)`: each backslash followed by a
delimiter character is replaced by that character, scanning left to right
without overlap. -/
def unescapeValue : List Char → List Char
  | [] => []
  | '\\' :: c :: rest =>
    if isDelim c then c :: unescapeValue rest
    else '\\' :: unescapeValue (c :: rest)
  | c :: rest => c :: unescapeValue rest

/-! ## The option table and `ModelineDict` -/

/-- Modelled from the spec: the external data asset `optionlist` (imported by
the source as `boolean_options`, `option_mapping`, `option_list`) is not part
of this repository; the spec describes it as "a static lookup data asset with
three inputs - set of boolean option names, set of short-to-long aliases, set
of valid long names". -/
structure OptionTable where
  booleanOptions : List String
  optionMapping : List (String × String)
  optionList : List String
deriving DecidableEq, Repr

/-- Modelled from the spec: a concrete option table holding exactly the
options, aliases and boolean kinds that the spec's examples exercise
(syntax/syn, fileencoding, textwidth/tw, filetype/ft, autoindent/ai and
allowrevins/ari, the last two boolean). -/
def specOptionTable : OptionTable :=
  ⟨["autoindent", "allowrevins"],
   [("syn", "syntax"), ("ft", "filetype"), ("tw", "textwidth"),
    ("ai", "autoindent"), ("ari", "allowrevins")],
   ["syntax", "fileencoding", "textwidth", "filetype", "autoindent",
    "allowrevins"]⟩

/-- A stored option value: Python `True`/`False` for boolean options, a
string otherwise. -/
inductive OptionValue
  | bool : Bool → OptionValue
  | str : String → OptionValue
deriving DecidableEq, Repr

/-- The exceptions `parse_line` can raise: `KeyError('Invalid vim option:
%s' % key)` from `_get_long_option`, and the two `ValueError`s from
`ModelineDict.__setitem__`; each constructor carries the data interpolated
into the exception message at the raise site. -/
inductive ModelineError
  | invalidOption : String → ModelineError
  | booleanValueConflict : String → String → ModelineError
  | missingValue : String → ModelineError
deriving DecidableEq, Repr

/-- The result dictionary: an insertion-ordered map like a Python dict. -/
abbrev Dict := List (String × OptionValue)

/-- Python `key.startswith('no')`. -/
def startsWithNo (key : String) : Bool :=
  match key.data with
  | 'n' :: 'o' :: _ => true
  | _ => false

/-- Python `key[2:]`. -/
def pyDrop2 (key : String) : String :=
  ⟨key.data.drop 2⟩

/-- The name `_get_long_option` works with after the negation strip:
`if key.startswith('no'): key = key[2:]`. -/
def stripNoKey (key : String) : String :=
  if startsWithNo key then pyDrop2 key else key

/-- `ModelineDict._get_long_option`: strip the `no` marker, then apply the
alias table; a name in neither the alias table nor the valid list raises
`KeyError` carrying the name as reassigned at that point (after the strip). -/
def getLongOption (t : OptionTable) (key : String) : Except ModelineError String :=
  let key1 := stripNoKey key
  match t.optionMapping.lookup key1 with
  | some long => .ok long
  | none =>
    if t.optionList.contains key1 then .ok key1
    else .error (.invalidOption key1)

/-- Plain `dict.__setitem__`: replace the value in place when the key is
present, append a new entry otherwise. -/
def dictUpdate : Dict → String → OptionValue → Dict
  | [], k, v => [(k, v)]
  | p :: d, k, v => if p.1 = k then (k, v) :: d else p :: dictUpdate d k v

/-- `ModelineDict.__setitem__`: resolve the key, then require boolean options
to carry no value (storing the negation of the `no` marker) and non-boolean
options to carry one. -/
def setItem (t : OptionTable) (d : Dict) (key : String) (val : Option String) :
    Except ModelineError Dict :=
  match getLongOption t key with
  | .error e => .error e
  | .ok longKey =>
    if t.booleanOptions.contains longKey then
      match val with
      | some v => .error (.booleanValueConflict key v)
      | none => .ok (dictUpdate d longKey (.bool (!startsWithNo key)))
    else
      match val with
      | none => .error (.missingValue key)
      | some v => .ok (dictUpdate d longKey (.str v))

/-! ## `parse_line` and `parse_buffer` -/

/-- One iteration of the token loop of `parse_line`: split the token at the
first `=`, skip empty names, unescape the value and store it. -/
def processToken (t : OptionTable) (d : Dict) (tok : List Char) :
    Except ModelineError Dict :=
  let key := tok.takeWhile fun c => c != '='
  if key.isEmpty then .ok d
  else
    let val : Option String :=
      match tok.drop key.length with
      | '=' :: v => some ⟨unescapeValue v⟩
      | _ => none
    setItem t d ⟨key⟩ val

/-- The token loop of `parse_line` over a matched options span. -/
def runTokens (t : OptionTable) (opts : List Char) : Except ModelineError Dict :=
  (splitOpts opts).foldlM (processToken t) []

/-- The version gate of `parse_line`, compared against the configured
`_vim_version`. -/
def applyGate (ver : Int) (op : Option Char) (ds : List Char) : Bool :=
  match op with
  | some '>' => decide (ver > (digitsToNat ds : Int))
  | some '=' => decide (ver = (digitsToNat ds : Int))
  | some '<' => decide (ver < (digitsToNat ds : Int))
  | _ => decide (ver ≥ (digitsToNat ds : Int))

/-- What `parse_line` does with a successful regex match: evaluate the gate,
return the empty dict when it fails, run the token loop otherwise. -/
def processMatch (t : OptionTable) (ver : Int) (r : MatchRes) :
    Except ModelineError Dict :=
  if applyGate ver r.1 r.2.1 then runTokens t r.2.2 else .ok []

/-- `ModelineParser.parse_line`: `_form2_re.match(l) or _form1_re.match(l)`,
then gate and token loop. -/
def parseLine (t : OptionTable) (ver : Int) (l : String) :
    Except ModelineError Dict :=
  match firstSome (matchForm2 l.data) (matchForm1 l.data) with
  | none => .ok []
  | some r => processMatch t ver r

/-- `ret.update(other)` inside `parse_buffer`.  `dict.update` on a dict
subclass performs plain dict insertion and does not dispatch to the
overridden `__setitem__`, so the per-line results are merged without
re-resolution. -/
def dictMerge (d : Dict) (r : Dict) : Dict :=
  r.foldl (fun d p => dictUpdate d p.1 p.2) d

/-- Python `lst[-n:]`: the last n elements for n > 0, but the whole list for
n = 0 (since `lst[-0:]` is `lst[0:]`). -/
def pyTakeLast {α : Type} (n : Nat) (l : List α) : List α :=
  if n = 0 then l else l.drop (l.length - n)

/-- `ModelineParser.parse_buffer`: merge the per-line results of the first
`mls` lines, then of the last `mls` lines, later lines overwriting earlier
ones per key. -/
def parseBuffer (t : OptionTable) (mls : Nat) (ver : Int) (buf : String) :
    Except ModelineError Dict :=
  match ((pySplitlines buf).take mls).foldlM
      (fun d l => (parseLine t ver l).map (dictMerge d)) [] with
  | .error e => .error e
  | .ok d1 =>
    (pyTakeLast mls (pySplitlines buf)).foldlM
      (fun d l => (parseLine t ver l).map (dictMerge d)) d1

/-! ## The parser object and its configuration accessors -/

/-- The instance-relevant state of a `ModelineParser` object: the class
attributes `_modelines = 5` and `_vim_version = 730`. -/
structure ModelineParser where
  _modelines : Nat
  _vim_version : Int
deriving DecidableEq, Repr

/-- `ModelineParser()` with the class defaults. -/
def ModelineParser.new : ModelineParser :=
  ⟨5, 730⟩

/-- A Python `NameError`, carrying the unresolvable name. -/
inductive PyRuntimeError
  | nameError : String → PyRuntimeError
deriving DecidableEq, Repr

/-- The module-level global bindings of `pymodeline` relevant to the
`modelines` property: the name `_modelines` is never assigned at module
level (only the class attribute `ModelineParser._modelines` exists), so the
module globals bind no value for it. -/
def moduleGlobals : List (String × Nat) :=
  []

/-- The getter of the `modelines` property.  Its body is `return _modelines`,
a bare name that resolves through the module globals, where it is unbound,
so evaluating the property raises `NameError`. -/
def modelinesGet (_p : ModelineParser) : Except PyRuntimeError Nat :=
  match moduleGlobals.lookup "_modelines" with
  | some v => .ok v
  | none => .error (.nameError "_modelines")

/-- The setter of the `modelines` property.  Its body `_modelines = new_val`
binds a function-local variable, so the parser object (and the class
attribute read by `parse_buffer`) is left unchanged. -/
def modelinesSet (p : ModelineParser) (_newVal : Nat) : ModelineParser :=
  p

/-- `parse_buffer` as invoked on a parser object: the window size and
emulated version are read from `self._modelines` and `self._vim_version`. -/
def parseBufferP (t : OptionTable) (p : ModelineParser) (buf : String) :
    Except ModelineError Dict :=
  parseBuffer t p._modelines p._vim_version buf

/-- Dictionary lookup by key, mirroring `dict.__getitem__` on long keys. -/
def dlookup (k : String) : Dict → Option OptionValue
  | [] => none
  | p :: d => if p.1 = k then some p.2 else dlookup k d

/-- The key sequence of a dictionary, in insertion order. -/
def dkeys (d : Dict) : List String :=
  d.map Prod.fst

/-- Whether `parse_line` returns normally (raises no exception) on a line. -/
def lineOk (t : OptionTable) (ver : Int) (l : String) : Bool :=
  match parseLine t ver l with
  | .ok _ => true
  | .error _ => false

/-- The dictionary `parse_line` returns on a non-raising line. -/
def lineVal (t : OptionTable) (ver : Int) (l : String) : Dict :=
  match parseLine t ver l with
  | .ok r => r
  | .error _ => []

/-! ## Auxiliary lemmas

Case-analysis and lifting lemmas used by the claim theorems: a successful
`firstSome` comes from one of its arguments; the `(?! se t? \s )` lookahead
of `_form1_re` guarantees that a matched options group never begins with
`se`/`set` plus whitespace (the group is a prefix of the text the lookahead
inspected); and any property of the continuation lifts through the marker
search functions.
-/

lemma firstSome_eq_some {α : Type} {a b : Option α} {r : α}
    (h : firstSome a b = some r) : a = some r ∨ (a = none ∧ b = some r) := by
  cases a with
  | some x => exact Or.inl h
  | none => exact Or.inr ⟨rfl, h⟩

lemma startsWithSeT_of_prefix (o s : List Char)
    (h : startsWithSeT (o ++ s) = false) : startsWithSeT o = false := by
  cases o with
  | nil => rfl
  | cons a o1 =>
    cases o1 with
    | nil => rfl
    | cons b o2 =>
      cases o2 with
      | nil => rfl
      | cons c o3 =>
        cases o3 with
        | cons d o4 => exact h
        | nil =>
          simp only [startsWithSeT, List.cons_append, List.nil_append] at h ⊢
          cases hA : (a == 's') <;> cases hB : (b == 'e') <;>
            cases hC : isPySpace c <;> simp_all

lemma form1Take_swt {r o : List Char} (h : form1Take r = some o) :
    startsWithSeT o = false := by
  unfold form1Take at h
  by_cases hs : startsWithSeT r
  · rw [if_pos hs] at h; cases h
  · rw [if_neg hs] at h
    have hsp : (r.takeWhile fun c => c != '\n') ++ (r.dropWhile fun c => c != '\n') = r :=
      List.takeWhile_append_dropWhile _ _
    split at h
    · cases h
      apply startsWithSeT_of_prefix _ (r.dropWhile fun c => c != '\n')
      rw [hsp]
      simpa using hs
    · cases h
      apply startsWithSeT_of_prefix _ (r.dropWhile fun c => c != '\n')
      rw [hsp]
      simpa using hs
    · cases h

lemma form1BodyGo_swt (rest : List Char) :
    ∀ (j : Nat) (o : List Char), form1BodyGo rest j = some o →
      startsWithSeT o = false := by
  intro j
  induction j with
  | zero => intro o h; exact form1Take_swt h
  | succ j ih =>
    intro o h
    unfold form1BodyGo at h
    rcases firstSome_eq_some h with h1 | ⟨_, h2⟩
    · exact form1Take_swt h1
    · exact ih o h2

lemma form1Body_swt {rest o : List Char} (h : form1Body rest = some o) :
    startsWithSeT o = false :=
  form1BodyGo_swt rest _ o h

lemma tailK_form1_swt {hv : Bool} {rest : List Char} {r : MatchRes}
    (h : tailK form1Body hv rest = some r) : startsWithSeT r.2.2 = false := by
  unfold tailK at h
  split at h
  · cases h
  · split at h
    · cases h
    · rename_i o hbody
      cases h
      exact form1Body_swt hbody

lemma tryVi_lift {P : MatchRes → Prop} {K : Bool → List Char → Option MatchRes}
    (hK : ∀ hv rest r, K hv rest = some r → P r) :
    ∀ afterVi r, tryVi K afterVi = some r → P r := by
  intro a r h
  unfold tryVi at h
  split at h
  · rcases firstSome_eq_some h with h1 | ⟨_, h2⟩
    · exact hK _ _ _ h1
    · exact hK _ _ _ h2
  · exact hK _ _ _ h

lemma a1Search_lift {P : MatchRes → Prop} {K : Bool → List Char → Option MatchRes}
    (hK : ∀ hv rest r, K hv rest = some r → P r) :
    ∀ l r, a1Search K l = some r → P r := by
  intro l
  induction l with
  | nil => intro r h; simp [a1Search] at h
  | cons c rest ih =>
    intro r h
    unfold a1Search at h
    rcases firstSome_eq_some h with h1 | ⟨_, h2⟩
    · split at h1
      · split at h1
        · exact tryVi_lift hK _ _ h1
        · cases h1
      · cases h1
    · split at h2
      · cases h2
      · exact ih _ h2

lemma a2Search_lift {P : MatchRes → Prop} {K : Bool → List Char → Option MatchRes}
    (hK : ∀ hv rest r, K hv rest = some r → P r) :
    ∀ l r, a2Search K l = some r → P r := by
  intro l
  induction l with
  | nil => intro r h; simp [a2Search] at h
  | cons c rest ih =>
    intro r h
    unfold a2Search at h
    rcases firstSome_eq_some h with h1 | ⟨_, h2⟩
    · split at h1
      · split at h1
        · exact hK _ _ _ h1
        · cases h1
      · cases h1
    · split at h2
      · cases h2
      · exact ih _ h2

lemma markerScan_lift {P : MatchRes → Prop} {K : Bool → List Char → Option MatchRes}
    (hK : ∀ hv rest r, K hv rest = some r → P r) :
    ∀ l r, markerScan K l = some r → P r := by
  intro l r h
  unfold markerScan at h
  rcases firstSome_eq_some h with h1 | ⟨_, h2⟩
  · exact a1Search_lift hK _ _ h1
  · rcases firstSome_eq_some h2 with h3 | ⟨_, h4⟩
    · split at h3
      · exact tryVi_lift hK _ _ h3
      · cases h3
    · exact a2Search_lift hK _ _ h4

lemma matchForm1_no_set_options :
    ∀ (l : List Char) (r : MatchRes), matchForm1 l = some r →
      startsWithSeT r.2.2 = false :=
  markerScan_lift fun _ _ _ h => tailK_form1_swt h

/-! ### Dictionary lemmas for the buffer-merge claim

`dictUpdate` is Python dict insertion (replace in place or append), and
`parse_buffer` is a left fold of merges.  The lemmas characterize lookups
and key lists of updates and merges, give extensionality for key-nodup
association lists, and culminate in `dictMerge_window`: re-playing the
overlap between the two windows of `parse_buffer` does not change the
result of the merge.
-/

lemma dlookup_update (d : Dict) (k k' : String) (v : OptionValue) :
    dlookup k' (dictUpdate d k v) = if k = k' then some v else dlookup k' d := by
  induction d with
  | nil => by_cases hk : k = k' <;> simp [dictUpdate, dlookup, hk]
  | cons p d ih =>
    by_cases hp : p.1 = k <;> by_cases hk : k = k' <;> by_cases hpk : p.1 = k' <;>
      simp_all [dictUpdate, dlookup]

lemma dkeys_update (d : Dict) (k : String) (v : OptionValue) :
    dkeys (dictUpdate d k v) = if k ∈ dkeys d then dkeys d else dkeys d ++ [k] := by
  induction d with
  | nil => simp [dictUpdate, dkeys]
  | cons p d ih =>
    by_cases hp : p.1 = k
    · subst hp
      simp [dictUpdate, dkeys]
    · by_cases hm : k ∈ dkeys d <;>
        simp_all [dictUpdate, dkeys, Ne.symm hp]

lemma mem_dkeys_update (d : Dict) (k : String) (v : OptionValue) :
    k ∈ dkeys (dictUpdate d k v) := by
  rw [dkeys_update]
  by_cases hm : k ∈ dkeys d <;> simp [hm]

lemma mem_dkeys_update_mono (d : Dict) (k' k : String) (v : OptionValue)
    (h : k' ∈ dkeys d) : k' ∈ dkeys (dictUpdate d k v) := by
  rw [dkeys_update]
  by_cases hm : k ∈ dkeys d <;> simp [hm, h]

lemma dkeys_update_nodup (d : Dict) (k : String) (v : OptionValue)
    (h : (dkeys d).Nodup) : (dkeys (dictUpdate d k v)).Nodup := by
  rw [dkeys_update]
  by_cases hm : k ∈ dkeys d
  · simpa [hm] using h
  · simp [hm, List.nodup_append, h]

lemma dlookup_eq_none_of_not_mem (k : String) (d : Dict) (h : k ∉ dkeys d) :
    dlookup k d = none := by
  induction d with
  | nil => rfl
  | cons p d ih =>
    simp only [dkeys, List.map_cons, List.mem_cons, not_or] at h
    rw [show dlookup k (p :: d) = if p.1 = k then some p.2 else dlookup k d from rfl,
      if_neg (fun hc => h.1 hc.symm)]
    exact ih (by simpa [dkeys] using h.2)

lemma dict_ext : ∀ (d1 d2 : Dict), (dkeys d1).Nodup → dkeys d1 = dkeys d2 →
    (∀ k, dlookup k d1 = dlookup k d2) → d1 = d2 := by
  intro d1
  induction d1 with
  | nil =>
    intro d2 _ hk _
    cases d2 with
    | nil => rfl
    | cons q d2 => simp [dkeys] at hk
  | cons p d1 ih =>
    intro d2 hnd hk hl
    cases d2 with
    | nil => simp [dkeys] at hk
    | cons q d2 =>
      obtain ⟨pk, pv⟩ := p
      obtain ⟨qk, qv⟩ := q
      simp only [dkeys, List.map_cons, List.cons.injEq] at hk
      obtain ⟨hkey, htail⟩ := hk
      subst hkey
      have hv := hl pk
      simp [dlookup] at hv
      subst hv
      simp only [dkeys, List.map_cons, List.nodup_cons] at hnd
      have htl : ∀ k, dlookup k d1 = dlookup k d2 := by
        intro k
        by_cases hkp : k = pk
        · subst hkp
          rw [dlookup_eq_none_of_not_mem k d1 (by simpa [dkeys] using hnd.1),
            dlookup_eq_none_of_not_mem k d2 (by simp [dkeys, ← htail]; simpa [dkeys] using hnd.1)]
        · have hkp2 : ¬ pk = k := fun hc => hkp hc.symm
          have := hl k
          simpa [dlookup, hkp2] using this
      rw [ih d2 hnd.2 (by simpa [dkeys] using htail) htl]

lemma dictMerge_cons (d : Dict) (p : String × OptionValue) (E : Dict) :
    dictMerge d (p :: E) = dictMerge (dictUpdate d p.1 p.2) E := rfl

lemma dictMerge_append (d : Dict) (E1 E2 : Dict) :
    dictMerge d (E1 ++ E2) = dictMerge (dictMerge d E1) E2 := by
  unfold dictMerge
  exact List.foldl_append _ _ _ _

lemma dlookup_append (k : String) (A B : Dict) :
    dlookup k (A ++ B) = firstSome (dlookup k A) (dlookup k B) := by
  induction A with
  | nil => simp [dlookup, firstSome]
  | cons p A ih =>
    by_cases hp : p.1 = k <;> simp [dlookup, hp, ih, firstSome]

lemma dlookup_merge (k : String) (d E : Dict) :
    dlookup k (dictMerge d E) = firstSome (dlookup k E.reverse) (dlookup k d) := by
  induction E generalizing d with
  | nil => simp [dictMerge, dlookup, firstSome]
  | cons p E ih =>
    rw [dictMerge_cons, ih, dlookup_update,
      show (p :: E).reverse = E.reverse ++ [p] from by simp, dlookup_append]
    cases hE : dlookup k E.reverse <;> by_cases hp : p.1 = k <;>
      simp [firstSome, dlookup, hp]

lemma dkeys_merge_of_subset (E : Dict) : ∀ (d : Dict),
    (∀ p ∈ E, p.1 ∈ dkeys d) → dkeys (dictMerge d E) = dkeys d := by
  induction E with
  | nil => intro d _; rfl
  | cons p E ih =>
    intro d h
    rw [dictMerge_cons, ih _ (fun q hq => mem_dkeys_update_mono _ _ _ _ (h q (by simp [hq]))),
      dkeys_update, if_pos (h p (by simp))]

lemma mem_dkeys_merge_mono (E : Dict) : ∀ (d : Dict) (k : String),
    k ∈ dkeys d → k ∈ dkeys (dictMerge d E) := by
  induction E with
  | nil => intro d k h; exact h
  | cons p E ih =>
    intro d k h
    rw [dictMerge_cons]
    exact ih _ _ (mem_dkeys_update_mono _ _ _ _ h)

lemma mem_dkeys_merge_of_mem (E : Dict) : ∀ (d : Dict) (p : String × OptionValue),
    p ∈ E → p.1 ∈ dkeys (dictMerge d E) := by
  induction E with
  | nil => intro d p h; cases h
  | cons q E ih =>
    intro d p h
    rcases List.mem_cons.mp h with rfl | h
    · rw [dictMerge_cons]
      exact mem_dkeys_merge_mono _ _ _ (mem_dkeys_update _ _ _)
    · rw [dictMerge_cons]
      exact ih _ _ h

lemma dkeys_merge_nodup (E : Dict) : ∀ (d : Dict),
    (dkeys d).Nodup → (dkeys (dictMerge d E)).Nodup := by
  induction E with
  | nil => intro d h; exact h
  | cons p E ih =>
    intro d h
    rw [dictMerge_cons]
    exact ih _ (dkeys_update_nodup _ _ _ h)

lemma dictMerge_reapply (d A B : Dict) (hnd : (dkeys d).Nodup) :
    dictMerge (dictMerge d (A ++ B)) B = dictMerge d (A ++ B) := by
  have hBk : ∀ p ∈ B, p.1 ∈ dkeys (dictMerge d (A ++ B)) :=
    fun p hp => mem_dkeys_merge_of_mem _ _ _ (List.mem_append.mpr (Or.inr hp))
  apply dict_ext
  · exact dkeys_merge_nodup _ _ (dkeys_merge_nodup _ _ hnd)
  · exact dkeys_merge_of_subset _ _ hBk
  · intro k
    rw [dlookup_merge, dlookup_merge,
      show (A ++ B).reverse = B.reverse ++ A.reverse from by simp, dlookup_append]
    cases dlookup k B.reverse <;> simp [firstSome]

lemma parseLine_eq_ok_of_lineOk {t : OptionTable} {ver : Int} {l : String}
    (h : lineOk t ver l = true) : parseLine t ver l = .ok (lineVal t ver l) := by
  cases hd : parseLine t ver l with
  | ok r => unfold lineVal; rw [hd]
  | error e =>
    exfalso
    unfold lineOk at h
    rw [hd] at h
    simp at h

lemma foldlM_lines_ok (t : OptionTable) (ver : Int) (M : List String) :
    ∀ (d0 : Dict), (∀ l ∈ M, lineOk t ver l = true) →
    M.foldlM (fun d l => (parseLine t ver l).map (dictMerge d)) d0
      = .ok (M.foldl (fun d l => dictMerge d (lineVal t ver l)) d0) := by
  induction M with
  | nil => intro d0 _; rfl
  | cons l M ih =>
    intro d0 h
    rw [show (l :: M).foldlM (fun d l => (parseLine t ver l).map (dictMerge d)) d0
        = ((parseLine t ver l).map (dictMerge d0)) >>= fun x =>
            M.foldlM (fun d l => (parseLine t ver l).map (dictMerge d)) x from rfl]
    rw [parseLine_eq_ok_of_lineOk (h l (by simp))]
    show M.foldlM _ (dictMerge d0 (lineVal t ver l)) = _
    rw [ih _ (fun l hl => h l (by simp [hl]))]
    rfl

lemma foldl_merge_join (t : OptionTable) (ver : Int) (M : List String) :
    ∀ (d : Dict), M.foldl (fun d l => dictMerge d (lineVal t ver l)) d
      = dictMerge d ((M.map (lineVal t ver)).flatten) := by
  induction M with
  | nil => intro d; rfl
  | cons l M ih =>
    intro d
    rw [List.foldl_cons, ih, List.map_cons,
      show (lineVal t ver l :: List.map (lineVal t ver) M).flatten
        = lineVal t ver l ++ (List.map (lineVal t ver) M).flatten from rfl,
      dictMerge_append]

lemma dictMerge_window (P O S : Dict) :
    dictMerge (dictMerge [] (P ++ O)) (O ++ S) = dictMerge [] ((P ++ O) ++ S) := by
  rw [show dictMerge (dictMerge [] (P ++ O)) (O ++ S)
      = dictMerge (dictMerge (dictMerge [] (P ++ O)) O) S from dictMerge_append _ _ _]
  rw [dictMerge_reapply [] P O (by simp [dkeys])]
  rw [← dictMerge_append]

lemma mapJoin_append (t : OptionTable) (ver : Int) (X Y : List String) :
    ((X ++ Y).map (lineVal t ver)).flatten
      = (X.map (lineVal t ver)).flatten ++ (Y.map (lineVal t ver)).flatten := by
  simp

/-- The fourteen doctests of the module docstring, evaluated on the
embedding: each line parses to exactly the dictionary the source's own
doctest records (pprint sorts keys; the lists below are in insertion
order). -/
lemma source_doctests :
    parseLine specOptionTable 730 "// vi:syntax=perl:fileencoding=utf8:"
      = .ok [("syntax", OptionValue.str "perl"), ("fileencoding", OptionValue.str "utf8")]
    ∧ parseLine specOptionTable 730 "vi:syntax=perl"
      = .ok [("syntax", OptionValue.str "perl")]
    ∧ parseLine specOptionTable 730 "# ex:syntax=perl fileencoding=utf8:textwidth=40"
      = .ok [("syntax", OptionValue.str "perl"), ("fileencoding", OptionValue.str "utf8"),
             ("textwidth", OptionValue.str "40")]
    ∧ parseLine specOptionTable 730 "ex:syntax=perl" = .ok []
    ∧ parseLine specOptionTable 730 "#vim:syntax=python" = .ok []
    ∧ parseLine specOptionTable 730 "/* vim:set syntax=perl fileencoding=utf8 : */"
      = .ok [("syntax", OptionValue.str "perl"), ("fileencoding", OptionValue.str "utf8")]
    ∧ parseLine specOptionTable 730 "// vim:se syntax=python:fileencoding=utf8"
      = .ok [("syntax", OptionValue.str "python")]
    ∧ parseLine specOptionTable 730 "<!-- vim:se syntax=python fileencoding=utf8:"
      = .ok [("syntax", OptionValue.str "python"), ("fileencoding", OptionValue.str "utf8")]
    ∧ parseLine specOptionTable 730 "# vim:se syntax=python fileencoding=utf8" = .ok []
    ∧ parseLine specOptionTable 730 "vim>0:syntax=perl"
      = .ok [("syntax", OptionValue.str "perl")]
    ∧ parseLine specOptionTable 730 "vi>0:syntax=perl" = .ok []
    ∧ parseLine specOptionTable 730 "vim<100:syntax=perl" = .ok []
    ∧ parseLine specOptionTable 730 "vim:syn=perl:ft=python:tw=80"
      = .ok [("syntax", OptionValue.str "perl"), ("filetype", OptionValue.str "python"),
             ("textwidth", OptionValue.str "80")]
    ∧ parseLine specOptionTable 730 "vim:noai:ari"
      = .ok [("autoindent", OptionValue.bool false), ("allowrevins", OptionValue.bool true)] :=
  ⟨rfl, rfl, rfl, rfl, rfl, rfl, rfl, rfl, rfl, rfl, rfl, rfl, rfl, rfl⟩

/-! ## Claims -/

/-- C1: the claim states that a backslash-escaped `:` is never treated as
form 2's span terminator and that an escaped value `a\:b` is stored as
`a:b`.  Evaluating the code on `vim:se syntax=x\:y :` shows the form-2 span
stops at the escaped colon (the escaped-colon branch of `_form2_re` can
never fire because its lookbehind sits after the consumed `:`): the span is
`syntax=x\` and the stored value is `x\`, not `x:y`.  The shared tokenizer
and a form-1 line do honour the escape, as the last conjunct shows. -/
theorem C1_escaped_colon_ends_form2_span :
    matchForm2 "vim:se syntax=x\\:y :".data = some (none, [], "syntax=x\\".data)
    ∧ parseLine specOptionTable 730 "vim:se syntax=x\\:y :"
        = .ok [("syntax", OptionValue.str "x\\")]
    ∧ OptionValue.str "x\\" ≠ OptionValue.str "x:y"
    ∧ parseLine specOptionTable 730 "vim:syntax=a\\:b"
        = .ok [("syntax", OptionValue.str "a:b")] :=
  ⟨rfl, rfl, by decide, rfl⟩

/-- C2: the claim states that reading the `modelines` property returns the
window size without raising and that the setter changes the window used by
`parse_buffer`.  In the code the getter reads the unbound module global
`_modelines` (raising `NameError`) and the setter assigns a function-local
variable, so the parser state - and hence the window `parse_buffer` reads
from `self._modelines` - never changes. -/
theorem C2_modelines_accessor_is_broken :
    modelinesGet ModelineParser.new = .error (.nameError "_modelines")
    ∧ (∀ (p : ModelineParser) (v : Nat), modelinesSet p v = p)
    ∧ (∀ (t : OptionTable) (p : ModelineParser) (v : Nat) (buf : String),
        parseBufferP t (modelinesSet p v) buf = parseBufferP t p buf) :=
  ⟨rfl, fun _ _ => rfl, fun _ _ _ _ => rfl⟩

/-- C3 counterexample: the claim states that `ex:` is recognized at the very
start of a line and that `parse_line "ex:syntax=perl"` yields a non-empty
map; the code reaches `ex` only through `.*? \s+ ex`, which needs at least
one whitespace character, so the parse yields the empty map. -/
theorem C3_ex_at_line_start_yields_empty :
    parseLine specOptionTable 730 "ex:syntax=perl" = .ok []
    ∧ ([] : Dict) ≠ [("syntax", OptionValue.str "perl")] :=
  ⟨rfl, by decide⟩

/-- C3 amended: an `ex:` marker is recognized only immediately after
whitespace, never at the start of the line, while `vi:` is recognized in
both positions; `parse_line "ex:syntax=perl"` yields the empty map and
`parse_line " ex:syntax=perl"` maps syntax to perl. -/
theorem C3_ex_marker_requires_whitespace :
    parseLine specOptionTable 730 "ex:syntax=perl" = .ok []
    ∧ parseLine specOptionTable 730 " ex:syntax=perl"
        = .ok [("syntax", OptionValue.str "perl")]
    ∧ parseLine specOptionTable 730 "vi:syntax=perl"
        = .ok [("syntax", OptionValue.str "perl")] :=
  ⟨rfl, rfl, rfl⟩

/-- C4: for every matched modeline the gate compares the configured emulated
version against the parsed version number exactly as claimed (`>`/`=`/`<`,
no operator meaning at-least), digits default to 0 when omitted, a false
gate yields the empty map, the non-`vim` marker branches never produce a
version constraint, and the two concrete lines with a constraint after `vi`
or `ex` yield the empty map (they fail the grammar altogether). -/
theorem C4_version_gate (t : OptionTable) (ver : Int) (l : String)
    (op : Option Char) (ds opts : List Char)
    (hm : firstSome (matchForm2 l.data) (matchForm1 l.data) = some (op, ds, opts)) :
    (op = some '>' → parseLine t ver l
        = if ver > (digitsToNat ds : Int) then runTokens t opts else .ok [])
    ∧ (op = some '=' → parseLine t ver l
        = if ver = (digitsToNat ds : Int) then runTokens t opts else .ok [])
    ∧ (op = some '<' → parseLine t ver l
        = if ver < (digitsToNat ds : Int) then runTokens t opts else .ok [])
    ∧ (op = none → parseLine t ver l
        = if ver ≥ (digitsToNat ds : Int) then runTokens t opts else .ok [])
    ∧ digitsToNat [] = 0
    ∧ (∀ rest r, matchCT false rest = some r → r.1 = none ∧ r.2.1 = [])
    ∧ parseLine t ver "vi>0:syntax=perl" = .ok []
    ∧ parseLine t ver "# ex>0:syntax=perl" = .ok [] := by
  refine ⟨?_, ?_, ?_, ?_, rfl, ?_, rfl, rfl⟩
  · rintro rfl
    unfold parseLine; rw [hm]
    show (if applyGate ver (some '>') ds then runTokens t opts else Except.ok []) = _
    rw [show applyGate ver (some '>') ds
      = decide (ver > (digitsToNat ds : Int)) from rfl]
    by_cases h : ver > (digitsToNat ds : Int) <;> simp [h]
  · rintro rfl
    unfold parseLine; rw [hm]
    show (if applyGate ver (some '=') ds then runTokens t opts else Except.ok []) = _
    rw [show applyGate ver (some '=') ds
      = decide (ver = (digitsToNat ds : Int)) from rfl]
    by_cases h : ver = (digitsToNat ds : Int) <;> simp [h]
  · rintro rfl
    unfold parseLine; rw [hm]
    show (if applyGate ver (some '<') ds then runTokens t opts else Except.ok []) = _
    rw [show applyGate ver (some '<') ds
      = decide (ver < (digitsToNat ds : Int)) from rfl]
    by_cases h : ver < (digitsToNat ds : Int) <;> simp [h]
  · rintro rfl
    unfold parseLine; rw [hm]
    show (if applyGate ver none ds then runTokens t opts else Except.ok []) = _
    rw [show applyGate ver none ds
      = decide (ver ≥ (digitsToNat ds : Int)) from rfl]
    by_cases h : ver ≥ (digitsToNat ds : Int) <;> simp [h]
  · intro rest r hr
    unfold matchCT at hr
    simp only [Bool.false_eq_true, if_false] at hr
    split at hr
    · cases hr; exact ⟨rfl, rfl⟩
    · cases hr

/-- C4 witness: the gate theorem applied to the concrete line
`vim>700:syntax=perl`. -/
theorem C4_version_gate_witness :
    parseLine specOptionTable 730 "vim>700:syntax=perl"
      = if (730 : Int) > (digitsToNat "700".data : Int)
        then runTokens specOptionTable "syntax=perl".data else .ok [] :=
  (C4_version_gate specOptionTable 730 "vim>700:syntax=perl" (some '>')
    "700".data "syntax=perl".data rfl).1 rfl

/-- C5: form 2 is tried before form 1 (`parse_line` uses the form-2 match
whenever one exists), a form-1 match never has an options group beginning
with `se`/`set` plus whitespace (the negative lookahead), and consequently
the claim's concrete line parses to exactly syntax = python: the span up to
the first `:` after `se ` is the terminated form-2 body and the text after
that `:` contributes nothing. -/
theorem C5_form2_priority_and_form1_refuses_set (t : OptionTable) (ver : Int) :
    (∀ (l : String) (r : MatchRes), matchForm2 l.data = some r →
        parseLine t ver l = processMatch t ver r)
    ∧ (∀ (l : List Char) (r : MatchRes), matchForm1 l = some r →
        startsWithSeT r.2.2 = false)
    ∧ parseLine specOptionTable 730 "// vim:se syntax=python:fileencoding=utf8"
        = .ok [("syntax", OptionValue.str "python")] := by
  refine ⟨?_, matchForm1_no_set_options, rfl⟩
  intro l r hm
  unfold parseLine
  rw [hm]
  rfl

/-- C5 witness: the priority rule applied to the claim's concrete line
(whose form-2 match has span `syntax=python`), and the lookahead property
applied to the form-1 match of `vi:syntax=perl`. -/
theorem C5_form2_priority_and_form1_refuses_set_witness :
    parseLine specOptionTable 730 "// vim:se syntax=python:fileencoding=utf8"
      = processMatch specOptionTable 730 (none, [], "syntax=python".data)
    ∧ startsWithSeT (((none, [], "syntax=perl".data) : MatchRes)).2.2 = false :=
  ⟨(C5_form2_priority_and_form1_refuses_set specOptionTable 730).1
      "// vim:se syntax=python:fileencoding=utf8" (none, [], "syntax=python".data) rfl,
   (C5_form2_priority_and_form1_refuses_set specOptionTable 730).2.1
      "vi:syntax=perl".data (none, [], "syntax=perl".data) rfl⟩

/-- C6: a token resolving to a boolean option with no explicit value stores
the negation of the `no` marker, and short aliases resolve to long names
before storage; the concrete lines of the claim evaluate as claimed. -/
theorem C6_boolean_negation (t : OptionTable) (d : Dict) (key L : String)
    (hres : getLongOption t key = .ok L)
    (hb : t.booleanOptions.contains L = true) :
    setItem t d key none = .ok (dictUpdate d L (.bool (!startsWithNo key)))
    ∧ parseLine specOptionTable 730 "vim:noai:ari"
        = .ok [("autoindent", OptionValue.bool false),
               ("allowrevins", OptionValue.bool true)]
    ∧ parseLine specOptionTable 730 "vim:syn=perl:ft=python:tw=80"
        = .ok [("syntax", OptionValue.str "perl"),
               ("filetype", OptionValue.str "python"),
               ("textwidth", OptionValue.str "80")] := by
  refine ⟨?_, rfl, rfl⟩
  unfold setItem
  rw [hres]
  dsimp only
  rw [hb]
  simp

/-- C6 witness: the boolean-negation rule applied to the token `noai`. -/
theorem C6_boolean_negation_witness :
    setItem specOptionTable [] "noai" none
      = .ok (dictUpdate [] "autoindent" (OptionValue.bool (!startsWithNo "noai"))) :=
  (C6_boolean_negation specOptionTable [] "noai" "autoindent" rfl rfl).1

/-- C7: for a token whose name resolves, `__setitem__` raises the
boolean-value-conflict error exactly when the resolved option is boolean and
a value is present, raises the missing-value error exactly when it is
non-boolean and no value is present, and succeeds otherwise. -/
theorem C7_setitem_value_kind_errors (t : OptionTable) (d : Dict) (key : String)
    (val : Option String) (L : String) (hres : getLongOption t key = .ok L) :
    ((∃ k v, setItem t d key val = .error (.booleanValueConflict k v))
        ↔ (t.booleanOptions.contains L = true ∧ val ≠ none))
    ∧ ((∃ k, setItem t d key val = .error (.missingValue k))
        ↔ (t.booleanOptions.contains L = false ∧ val = none))
    ∧ (((t.booleanOptions.contains L = true ∧ val = none) ∨
        (t.booleanOptions.contains L = false ∧ val ≠ none)) →
        ∃ d', setItem t d key val = .ok d') := by
  unfold setItem
  rw [hres]
  dsimp only
  cases hb : t.booleanOptions.contains L <;> cases val <;> simp

/-- C7 witness: the error characterization applied to the boolean token
`noai` without a value, which therefore succeeds. -/
theorem C7_setitem_value_kind_errors_witness :
    ∃ d', setItem specOptionTable [] "noai" none = .ok d' :=
  (C7_setitem_value_kind_errors specOptionTable [] "noai" none "autoindent"
    rfl).2.2 (Or.inl ⟨rfl, rfl⟩)

/-- C8 counterexample: the claim states that the invalid-option error
carries the raw name as it appeared in the modeline; on `vim:nofoobar=1`
the code raises `KeyError` carrying `foobar`, the name after the `no`
marker was stripped, not the raw `nofoobar`. -/
theorem C8_error_carries_stripped_name :
    parseLine specOptionTable 730 "vim:nofoobar=1"
      = .error (.invalidOption "foobar")
    ∧ ("foobar" : String) ≠ "nofoobar" :=
  ⟨rfl, by decide⟩

/-- C8 amended: when a name is, after negation stripping, neither an alias
nor a member of the valid long-name list, resolution fails with an
invalid-option error carrying the name after the `no` prefix was stripped
(and before aliasing, which never fires for such a name). -/
theorem C8_invalid_option_error_name (t : OptionTable) (key : String)
    (hmap : t.optionMapping.lookup (stripNoKey key) = none)
    (hlist : t.optionList.contains (stripNoKey key) = false) :
    getLongOption t key = .error (.invalidOption (stripNoKey key)) := by
  unfold getLongOption
  dsimp only
  rw [hmap]
  dsimp only
  rw [hlist]
  simp

/-- C8 witness: the amended resolution-failure rule applied to `nofoobar`. -/
theorem C8_invalid_option_error_name_witness :
    getLongOption specOptionTable "nofoobar"
      = .error (.invalidOption (stripNoKey "nofoobar")) :=
  C8_invalid_option_error_name specOptionTable "nofoobar" rfl rfl

/-- C10: the `no` marker is stripped regardless of the option's kind: for a
string-valued long option X (valid, unaliased, not itself beginning with
`no`), the token `noX=v` stores v under X exactly as `X=v` does, and
`vim:nosyntax=perl` parses to syntax = perl. -/
theorem C10_no_strip_on_string_options (t : OptionTable) (d : Dict) (X v : String)
    (hmap : t.optionMapping.lookup X = none)
    (hlist : t.optionList.contains X = true)
    (hbool : t.booleanOptions.contains X = false)
    (hno : startsWithNo X = false) :
    setItem t d ("no" ++ X) (some v) = .ok (dictUpdate d X (.str v))
    ∧ setItem t d ("no" ++ X) (some v) = setItem t d X (some v)
    ∧ parseLine specOptionTable 730 "vim:nosyntax=perl"
        = .ok [("syntax", OptionValue.str "perl")] := by
  have hstrip : stripNoKey ("no" ++ X) = X := rfl
  have h1 : setItem t d ("no" ++ X) (some v) = .ok (dictUpdate d X (.str v)) := by
    unfold setItem getLongOption
    rw [hstrip]
    dsimp only
    rw [hmap]
    dsimp only
    rw [if_pos hlist]
    dsimp only
    rw [if_neg (show ¬t.booleanOptions.contains X = true by simpa using hbool)]
  have hstrip2 : stripNoKey X = X := by
    unfold stripNoKey
    rw [hno]
    simp
  have h2 : setItem t d X (some v) = .ok (dictUpdate d X (.str v)) := by
    unfold setItem getLongOption
    rw [hstrip2]
    dsimp only
    rw [hmap]
    dsimp only
    rw [if_pos hlist]
    dsimp only
    rw [if_neg (show ¬t.booleanOptions.contains X = true by simpa using hbool)]
  exact ⟨h1, h1.trans h2.symm, rfl⟩

/-- C10 witness: the negation-marker rule applied to the string option
`syntax` with value `perl`. -/
theorem C10_no_strip_on_string_options_witness :
    setItem specOptionTable [] ("no" ++ "syntax") (some "perl")
      = .ok (dictUpdate [] "syntax" (OptionValue.str "perl")) :=
  (C10_no_strip_on_string_options specOptionTable [] "syntax" "perl"
    rfl rfl rfl rfl).1

/-- C9: for a buffer shorter than twice the window size (so the two windows
overlap) on which every line parses without error, `parse_buffer` returns
the same map as a single merge pass over all lines in order, later lines
overwriting earlier ones per key: re-merging the overlapped suffix of the
first window is a no-op because per-line parsing is stateless and re-playing
a suffix of updates does not change a later-wins merge. -/
theorem C9_overlapping_windows_merge_once (t : OptionTable) (ver : Int)
    (a : Nat) (buf : String)
    (hlen : (pySplitlines buf).length < 2 * a)
    (hok : ∀ l ∈ pySplitlines buf, lineOk t ver l = true) :
    parseBuffer t a ver buf
      = (pySplitlines buf).foldlM
          (fun d l => (parseLine t ver l).map (dictMerge d)) [] := by
  rcases Nat.eq_zero_or_pos a with rfl | hapos
  · exfalso; omega
  unfold parseBuffer
  rw [foldlM_lines_ok t ver _ _ (fun l hl => hok l (List.mem_of_mem_take hl))]
  have htail : ∀ l ∈ pyTakeLast a (pySplitlines buf), lineOk t ver l = true := by
    intro l hl
    apply hok
    unfold pyTakeLast at hl
    by_cases ha0 : a = 0
    · rw [if_pos ha0] at hl; exact hl
    · rw [if_neg ha0] at hl; exact List.drop_subset _ _ hl
  rw [show (match Except.ok ((pySplitlines buf).take a |>.foldl
        (fun d l => dictMerge d (lineVal t ver l)) []) with
      | Except.error e => Except.error e
      | Except.ok d1 => (pyTakeLast a (pySplitlines buf)).foldlM
          (fun d l => (parseLine t ver l).map (dictMerge d)) d1)
      = (pyTakeLast a (pySplitlines buf)).foldlM
          (fun d l => (parseLine t ver l).map (dictMerge d))
          ((pySplitlines buf).take a |>.foldl
            (fun d l => dictMerge d (lineVal t ver l)) []) from rfl]
  rw [foldlM_lines_ok t ver _ _ htail]
  rw [foldlM_lines_ok t ver _ _ hok]
  rw [foldl_merge_join, foldl_merge_join, foldl_merge_join]
  congr 1
  set L := pySplitlines buf with hL
  by_cases hna : L.length ≤ a
  · have h1 : L.take a = L := List.take_of_length_le hna
    have h2 : pyTakeLast a L = L := by
      unfold pyTakeLast
      rw [if_neg (by omega), Nat.sub_eq_zero_of_le hna, List.drop_zero]
    rw [h1, h2]
    have := dictMerge_window [] ((L.map (lineVal t ver)).flatten) []
    simpa using this
  · push_neg at hna
    have hs_le : L.length - a ≤ a := by omega
    have hP : L.take a = L.take (L.length - a) ++ (L.take a).drop (L.length - a) := by
      conv_lhs => rw [← List.take_append_drop (L.length - a) (L.take a)]
      rw [List.take_take, Nat.min_eq_left hs_le]
    have hT : pyTakeLast a L = (L.take a).drop (L.length - a) ++ L.drop a := by
      unfold pyTakeLast
      rw [if_neg (by omega)]
      nth_rewrite 2 [← List.take_append_drop a L]
      rw [List.drop_append_of_le_length (by simp [List.length_take]; omega)]
    rw [hP, hT]
    conv_rhs => rw [← List.take_append_drop a L, hP]
    simp only [mapJoin_append]
    exact dictMerge_window _ _ _

/-- C9 witness: the overlap theorem applied to a three-line buffer with the
default window size 5. -/
theorem C9_overlapping_windows_merge_once_witness :
    parseBuffer specOptionTable 5 730 "vim:syntax=perl\nplain text\nvim:noai"
      = (pySplitlines "vim:syntax=perl\nplain text\nvim:noai").foldlM
          (fun d l => (parseLine specOptionTable 730 l).map (dictMerge d)) [] :=
  C9_overlapping_windows_merge_once specOptionTable 730 5
    "vim:syntax=perl\nplain text\nvim:noai" (by decide) (by decide)

end Pymodeline
